import Mathlib

/- Verification development for a terminal audio-analysis tool (music education
software). The source is a single Rust file: an analyzer (RMS amplitude, FFT
peak-frequency estimation with a Hann window, wavelength derivation), a
chromatic note-naming function, a frequency-band display label, an interactive
device-selection startup, and a mutex-guarded shared snapshot exchanged between
the audio callback (producer) and the display loop (consumer). Floating-point
arithmetic is modelled over the reals; the FFT is modelled as the discrete
Fourier transform it computes. -/

namespace MusicEd

/-- The shared snapshot of derived metrics (struct AudioData in the source). -/
@[ext]
structure AudioData where
  amplitude : ℝ
  frequency : ℝ
  wavelength : ℝ

/-- AudioData::new(): the all-zero initial snapshot. -/
def AudioData.new : AudioData := ⟨0, 0, 0⟩

/-- calculate_rms from the source: 0.0 for an empty buffer, otherwise the square
root of the sum of squared samples divided by the length. -/
noncomputable def calculate_rms (samples : List ℝ) : ℝ :=
  if samples.isEmpty then 0
  else Real.sqrt ((samples.map fun x => x * x).sum / (samples.length : ℝ))

/-- The RMS amplitude as the spec words it: the square root of the mean of the
squared samples, 0.0 for an empty sequence. -/
noncomputable def spec_rms (samples : List ℝ) : ℝ :=
  if samples = [] then 0
  else Real.sqrt ((samples.map fun s => s ^ 2).sum / (samples.length : ℝ))

/-- The Hann window weight applied at index i in calculate_frequency:
0.5 * (1 - cos(2 pi i / (window_size - 1))) with window_size = 1024. -/
noncomputable def hannWindow (i : ℕ) : ℝ :=
  0.5 * (1 - Real.cos (2 * Real.pi * (i : ℝ) / 1023))

/-- The windowed complex input built in calculate_frequency: the i-th sample
(real part) scaled by the Hann weight, imaginary part zero. -/
noncomputable def windowedSamples (samples : List ℝ) (i : ℕ) : ℂ :=
  ((samples.getD i 0 * hannWindow i : ℝ) : ℂ)

/-- The size-1024 forward discrete Fourier transform computed by the FFT library:
bin k is the sum over j of x_j * exp(-2 pi I j k / 1024). -/
noncomputable def dft1024 (x : ℕ → ℂ) (k : ℕ) : ℂ :=
  ∑ j ∈ Finset.range 1024, x j * Complex.exp (-(2 * Real.pi * Complex.I * j * k) / 1024)

/-- Magnitude of bin k as the source computes it: Complex::norm of the
transformed windowed buffer. -/
noncomputable def binMagnitude (samples : List ℝ) (k : ℕ) : ℝ :=
  Complex.abs (dft1024 (windowedSamples samples) k)

/-- One iteration of the peak-picking scan in calculate_frequency: replace the
running (max_magnitude, peak_bin) pair only on strict improvement, and only for
bins with 0 < i < 512. -/
noncomputable def peakStep (mag : ℕ → ℝ) (acc : ℝ × ℕ) (i : ℕ) : ℝ × ℕ :=
  if mag i > acc.1 ∧ 0 < i ∧ i < 512 then (mag i, i) else acc

/-- The peak bin selected by the scan in calculate_frequency, starting from
max_magnitude = 0.0 and peak_bin = 0 over all 1024 bins. -/
noncomputable def peakBin (mag : ℕ → ℝ) : ℕ :=
  ((List.range 1024).foldl (peakStep mag) (0, 0)).2

/-- calculate_frequency from the source: 0.0 for buffers shorter than 1024
samples, otherwise peak_bin * sample_rate / 1024 for the Hann-windowed DFT of
the first 1024 samples. -/
noncomputable def calculate_frequency (samples : List ℝ) (sample_rate : ℝ) : ℝ :=
  if samples.length < 1024 then 0
  else (peakBin (binMagnitude samples) : ℝ) * sample_rate / 1024

/-- Magnitude of bin k as claim C1 words it: sqrt(re^2 + im^2) of the size-1024
DFT of the Hann-windowed first 1024 samples. -/
noncomputable def specMagnitude (samples : List ℝ) (k : ℕ) : ℝ :=
  Real.sqrt ((dft1024 (windowedSamples samples) k).re ^ 2 +
    (dft1024 (windowedSamples samples) k).im ^ 2)

open Classical in
/-- The peak bin as claim C1 words it: the lowest index strictly between 0 and
512 whose magnitude is maximal among the scanned bins, and 0 when every scanned
bin has magnitude 0. -/
noncomputable def specPeakBin (mag : ℕ → ℝ) : ℕ :=
  if ∀ i, 0 < i → i < 512 → mag i = 0 then 0
  else sInf {k | (0 < k ∧ k < 512) ∧ ∀ j, 0 < j → j < 512 → mag j ≤ mag k}

/-- The peak-frequency estimate as claim C1 words it: 0.0 for buffers shorter
than 1024 samples, otherwise k * sample_rate / 1024 for the spec peak bin k. -/
noncomputable def spec_peak_frequency (samples : List ℝ) (sample_rate : ℝ) : ℝ :=
  if samples.length < 1024 then 0
  else (specPeakBin (specMagnitude samples) : ℝ) * sample_rate / 1024

/-- The wavelength computed in the capture callback: 343.0 / frequency * 100.0
centimeters when frequency > 0.0, else 0.0. -/
noncomputable def wavelengthOf (frequency : ℝ) : ℝ :=
  if frequency > 0 then 343 / frequency * 100 else 0

/-- One invocation of the analysis pipeline in the capture callback: the
SignalMetrics value it publishes to the shared store. -/
noncomputable def analyze (samples : List ℝ) (sample_rate : ℝ) : AudioData :=
  { amplitude := calculate_rms samples
    frequency := calculate_frequency samples sample_rate
    wavelength := wavelengthOf (calculate_frequency samples sample_rate) }

/-- The 12-name chromatic table from the source, starting at A. -/
def note_names : List String :=
  ["A", "A#", "B", "C", "C#", "D", "D#", "E", "F", "F#", "G", "G#"]

/-- f32::round in Rust: round to the nearest integer, ties away from zero. -/
noncomputable def roundTiesAway (x : ℝ) : ℤ :=
  if 0 ≤ x then ⌊x + 1 / 2⌋ else ⌈x - 1 / 2⌉

/-- Rust float-to-i32 `as` cast: saturates at the i32 range bounds. -/
def i32sat (z : ℤ) : ℤ := max (-2147483648) (min 2147483647 z)

/-- Rust i32-to-usize `as` cast: sign-extend and reinterpret modulo 2^64. -/
def usizeOfI32 (z : ℤ) : ℕ := (z % 2 ^ 64).toNat

/-- The rounded semitone offset from A4 computed in frequency_to_note:
round((frequency / 440).log2() * 12) cast to i32. -/
noncomputable def semitonesFromA4 (frequency : ℝ) : ℤ :=
  i32sat (roundTiesAway (Real.logb 2 (frequency / 440) * 12))

/-- The octave computed in frequency_to_note: 4 + rounded_semitones / 12, where
Rust i32 division truncates toward zero. -/
def octaveOf (r : ℤ) : ℤ := 4 + r.tdiv 12

/-- The note index computed in frequency_to_note:
((rounded_semitones % 12) + 12) % 12, where Rust i32 % is the truncated
remainder. -/
def noteIndex (r : ℤ) : ℤ := (r.tmod 12 + 12).tmod 12

/-- frequency_to_note from the source: "Silence" for frequency <= 0.0, else the
chromatic name at the note index concatenated with the octave; none models an
out-of-bounds indexing panic. -/
noncomputable def frequency_to_note (frequency : ℝ) : Option String :=
  if frequency ≤ 0 then some "Silence"
  else
    (note_names.get? (usizeOfI32 (noteIndex (semitonesFromA4 frequency)))).map
      fun name => name ++ toString (octaveOf (semitonesFromA4 frequency))

/-- The note naming as claim C5 words it: identical rounding and note table, but
floor division for the octave (so r = -1 yields octave 3) and floor mod for the
note index. -/
noncomputable def spec_frequency_to_note (frequency : ℝ) : String :=
  if frequency ≤ 0 then "Silence"
  else
    note_names.getD
        (((roundTiesAway (Real.logb 2 (frequency / 440) * 12)).fmod 12 + 12).fmod 12).toNat
        "" ++
      toString (4 + (roundTiesAway (Real.logb 2 (frequency / 440) * 12)).fdiv 12)

/-- The note naming claim C5 amended to the source's arithmetic: octave
4 + r / 12 with Rust truncation toward zero (so r = -1 yields octave 4), note
index ((r % 12) + 12) % 12 with the truncated remainder, and the saturating
i32 cast of the rounded semitone offset. -/
noncomputable def amended_frequency_to_note (frequency : ℝ) : String :=
  if frequency ≤ 0 then "Silence"
  else
    note_names.getD (noteIndex (semitonesFromA4 frequency)).toNat "" ++
      toString (octaveOf (semitonesFromA4 frequency))

/-- The frequency-band text chosen by the display loop. -/
noncomputable def bandLabel (frequency : ℝ) : String :=
  if frequency < 80 then "Bass"
  else if frequency < 250 then "Low Mid"
  else if frequency < 2000 then "Mid"
  else if frequency < 4000 then "High Mid"
  else "Treble"

/-- Outcome of the startup portion of main: an Ok(()) return (process success
exit, with the diagnostic printed to stderr if any), an Err return propagated by
the ? operator (process error exit), or proceeding with the selected device. -/
inductive MainResult where
  | okExit (stderr : Option String)
  | errExit
  | proceed (idx : ℕ)
deriving DecidableEq

/-- The device-selection prefix of main: given the number of input devices and
the parse result of the typed selection (none models a parse failure, which the
? operator turns into an Err return). -/
def mainStartup (numDevices : ℕ) (parsed : Option ℕ) : MainResult :=
  if numDevices = 0 then .okExit (some "No input devices found!")
  else
    match parsed with
    | none => .errExit
    | some idx =>
      if numDevices ≤ idx then .okExit (some "Invalid device selection!")
      else .proceed idx

/-- Result of Mutex::lock(): Ok with the guarded value, or Err carrying the
value behind a poisoned lock. -/
inductive LockResult (α : Type) where
  | ok (value : α)
  | poisoned (value : α)

/-- The display loop's read of the shared store: audio_data.lock().unwrap();
none models the unwrap panic on a poisoned lock. -/
def snapshotRead (r : LockResult AudioData) : Option AudioData :=
  match r with
  | .ok v => some v
  | .poisoned _ => none

/-- The capture callback's publish: `if let Ok(mut data) = audio_data.lock()`
writes the new metrics and silently skips the update on a poisoned lock; it
never panics. Returns the resulting store contents. -/
def publishStore (r : LockResult AudioData) (m : AudioData) : AudioData :=
  match r with
  | .ok _ => m
  | .poisoned v => v

/-- Multiplication over the finite-or-not value domain used to track IEEE
special values: none models NaN or an infinity and propagates. -/
def nanMul : Option ℝ → Option ℝ → Option ℝ
  | some x, some y => some (x * y)
  | _, _ => none

/-- Addition over the finite-or-not value domain. -/
def nanAdd : Option ℝ → Option ℝ → Option ℝ
  | some x, some y => some (x + y)
  | _, _ => none

/-- Division over the finite-or-not value domain; division by zero yields a
non-finite result. -/
noncomputable def nanDiv : Option ℝ → Option ℝ → Option ℝ
  | some x, some y => if y = 0 then none else some (x / y)
  | _, _ => none

/-- Square root over the finite-or-not value domain; the square root of a
negative value is NaN. -/
noncomputable def nanSqrt : Option ℝ → Option ℝ
  | some x => if x < 0 then none else some (Real.sqrt x)
  | none => none

/-- calculate_rms over the finite-or-not value domain: the amplitude the
callback publishes when the buffer may contain NaN or infinite samples. The
source has no finiteness check, so non-finite values flow through unchanged. -/
noncomputable def calculate_rms_ieee (samples : List (Option ℝ)) : Option ℝ :=
  if samples.isEmpty then some 0
  else nanSqrt (nanDiv ((samples.map fun x => nanMul x x).foldr nanAdd (some 0))
    (some (samples.length : ℝ)))

/-- The frequency estimate is nonnegative whenever the sample rate is. -/
theorem calculate_frequency_nonneg (samples : List ℝ) (sample_rate : ℝ)
    (hr : 0 ≤ sample_rate) : 0 ≤ calculate_frequency samples sample_rate := by
  unfold calculate_frequency
  split
  · exact le_refl 0
  · positivity

/-- C2: calculate_rms returns sqrt(mean(s_i^2)) for every nonempty sample
sequence and 0.0 (without error) for the empty sequence, exactly the spec's RMS
formula. -/
theorem C2_rms_eq_spec (samples : List ℝ) : calculate_rms samples = spec_rms samples := by
  have hfun : (fun x : ℝ => x * x) = fun s : ℝ => s ^ 2 := by
    funext x; ring
  unfold calculate_rms spec_rms
  rw [hfun]
  rcases samples with _ | ⟨a, l⟩
  · rfl
  · simp

/-- C3: for every buffer and nonnegative sample rate, the published wavelength
is zero exactly when the frequency is zero, and a positive frequency yields
wavelength 34300 / frequency centimeters. -/
theorem C3_wavelength_invariant (samples : List ℝ) (sample_rate : ℝ)
    (hr : 0 ≤ sample_rate) :
    (((analyze samples sample_rate).wavelength = 0) ↔
      ((analyze samples sample_rate).frequency = 0)) ∧
    (0 < (analyze samples sample_rate).frequency →
      (analyze samples sample_rate).wavelength =
        34300 / (analyze samples sample_rate).frequency) := by
  have hf : 0 ≤ calculate_frequency samples sample_rate :=
    calculate_frequency_nonneg samples sample_rate hr
  simp only [analyze]
  constructor
  · unfold wavelengthOf
    rcases lt_or_eq_of_le hf with hpos | hzero
    · rw [if_pos hpos]
      constructor
      · intro h0
        exfalso
        have hgt : 0 < 343 / calculate_frequency samples sample_rate * 100 := by positivity
        linarith
      · intro h0; linarith
    · rw [if_neg (by rw [← hzero]; exact lt_irrefl 0)]
      simp [← hzero]
  · intro hpos
    unfold wavelengthOf
    rw [if_pos hpos]
    have hne : calculate_frequency samples sample_rate ≠ 0 := ne_of_gt hpos
    field_simp
    ring

/-- C3 witness: the invariant instantiated on the empty buffer at 44100 Hz. -/
theorem C3_witness :
    (((analyze [] 44100).wavelength = 0) ↔ ((analyze [] 44100).frequency = 0)) ∧
    (0 < (analyze [] 44100).frequency →
      (analyze [] 44100).wavelength = 34300 / (analyze [] 44100).frequency) :=
  C3_wavelength_invariant [] 44100 (by norm_num)

/-- C6 counterexample: the display loop's snapshot read is lock().unwrap(), and
on a poisoned lock the unwrap panics (modelled as none) instead of degrading
gracefully. -/
theorem C6_counterexample :
    snapshotRead (LockResult.poisoned AudioData.new) = none := rfl

/-- C6 amended: poisoning tolerance is reversed from the claim. The producer's
publish path (if let Ok) skips the update and never panics on a poisoned lock,
while the consumer's snapshot read returns the value only on a healthy lock and
panics on a poisoned one. -/
theorem C6_poison_handling (d m : AudioData) :
    publishStore (LockResult.ok d) m = m ∧
    publishStore (LockResult.poisoned d) m = d ∧
    snapshotRead (LockResult.ok d) = some d ∧
    snapshotRead (LockResult.poisoned d) = none :=
  ⟨rfl, rfl, rfl, rfl⟩

/-- C7 counterexample: with zero input devices the process prints the diagnostic
to stderr but main returns Ok(()), a success exit, not an error exit. -/
theorem C7_counterexample :
    mainStartup 0 (some 0) = MainResult.okExit (some "No input devices found!") ∧
    mainStartup 0 (some 0) ≠ MainResult.errExit := by
  constructor
  · rfl
  · intro h
    simp [mainStartup] at h

/-- C7 amended: only a non-numeric selection terminates with an error exit (the
? operator propagates the parse failure); the no-devices and out-of-range cases
print their diagnostic and terminate with a success exit (Ok(())). -/
theorem C7_startup_outcomes (numDevices : ℕ) (parsed : Option ℕ) :
    (numDevices = 0 →
      mainStartup numDevices parsed = .okExit (some "No input devices found!")) ∧
    (0 < numDevices → parsed = none → mainStartup numDevices parsed = .errExit) ∧
    (∀ i, 0 < numDevices → parsed = some i → numDevices ≤ i →
      mainStartup numDevices parsed = .okExit (some "Invalid device selection!")) ∧
    (∀ i, 0 < numDevices → parsed = some i → i < numDevices →
      mainStartup numDevices parsed = .proceed i) := by
  refine ⟨fun h => by simp [mainStartup, h], fun h hp => ?_, fun i h hp hge => ?_,
    fun i h hp hlt => ?_⟩
  · subst hp
    unfold mainStartup
    rw [if_neg (by omega)]
  · subst hp
    unfold mainStartup
    rw [if_neg (by omega)]
    exact if_pos hge
  · subst hp
    unfold mainStartup
    rw [if_neg (by omega)]
    exact if_neg (by omega)

/-- C7 witness: one device and a non-numeric selection is an error exit. -/
theorem C7_witness : mainStartup 1 none = MainResult.errExit :=
  (C7_startup_outcomes 1 none).2.1 (by norm_num) rfl

/-- C8: the band label uses strict less-than at every boundary, so 80.0 is
"Low Mid", 250.0 is "Mid", 2000.0 is "High Mid" and 4000.0 is "Treble". -/
theorem C8_band_boundaries (f : ℝ) :
    (f < 80 → bandLabel f = "Bass") ∧
    (80 ≤ f → f < 250 → bandLabel f = "Low Mid") ∧
    (250 ≤ f → f < 2000 → bandLabel f = "Mid") ∧
    (2000 ≤ f → f < 4000 → bandLabel f = "High Mid") ∧
    (4000 ≤ f → bandLabel f = "Treble") := by
  unfold bandLabel
  refine ⟨fun h => if_pos h, fun h1 h2 => ?_, fun h1 h2 => ?_, fun h1 h2 => ?_,
    fun h1 => ?_⟩
  · rw [if_neg (by linarith)]
    exact if_pos h2
  · rw [if_neg (by linarith), if_neg (by linarith)]
    exact if_pos h2
  · rw [if_neg (by linarith), if_neg (by linarith), if_neg (by linarith)]
    exact if_pos h2
  · rw [if_neg (by linarith), if_neg (by linarith), if_neg (by linarith),
      if_neg (by linarith)]

/-- C8 witness: the boundary 80.0 classifies as "Low Mid". -/
theorem C8_witness : bandLabel 80 = "Low Mid" :=
  (C8_band_boundaries 80).2.1 le_rfl (by norm_num)

/-- C4 counterexample: a one-sample buffer holding NaN makes the callback
publish a NaN amplitude; the source has no fallback to 0.0 for non-finite
results. -/
theorem C4_counterexample : calculate_rms_ieee [none] = none := rfl

/-- Division of finite values by a nonzero finite value stays finite. -/
theorem nanDiv_some (x y : ℝ) (hy : y ≠ 0) : nanDiv (some x) (some y) = some (x / y) := by
  show (if y = 0 then none else some (x / y)) = some (x / y)
  rw [if_neg hy]

/-- The square root of a nonnegative finite value stays finite. -/
theorem nanSqrt_some (x : ℝ) (hx : 0 ≤ x) : nanSqrt (some x) = some (Real.sqrt x) := by
  show (if x < 0 then none else some (Real.sqrt x)) = some (Real.sqrt x)
  rw [if_neg (not_lt.mpr hx)]

/-- Folding the NaN-tracking addition over finite values is ordinary
summation. -/
theorem foldr_nanAdd_some (l : List ℝ) :
    (l.map fun x => some (x * x)).foldr nanAdd (some 0) =
      some ((l.map fun x => x * x).sum) := by
  induction l with
  | nil => simp [nanAdd]
  | cons a l ih => simp [nanAdd, ih]

/-- C4 amended: no non-finite fallback exists. For buffers whose samples are all
finite the published amplitude equals the (finite) exact RMS value, but a
non-finite sample propagates into the published amplitude unchanged. -/
theorem C4_finite_inputs (samples : List ℝ) :
    calculate_rms_ieee (samples.map some) = some (calculate_rms samples) := by
  unfold calculate_rms_ieee calculate_rms
  rcases samples with _ | ⟨a, l⟩
  · simp [Real.sqrt_zero]
  · have hmap : ((a :: l).map some).map (fun x => nanMul x x) =
        (a :: l).map fun x => some (x * x) := by
      rw [List.map_map]
      rfl
    have hlen : (((a :: l).map some).length : ℝ) = ((a :: l).length : ℝ) := by
      rw [List.length_map]
    have hsumnn : 0 ≤ ((a :: l).map fun x => x * x).sum :=
      List.sum_nonneg (by
        intro x hx
        obtain ⟨y, _, hy⟩ := List.mem_map.mp hx
        rw [← hy]
        exact mul_self_nonneg y)
    have hlenpos : (0 : ℝ) < (((a :: l).length : ℕ) : ℝ) := by
      exact_mod_cast Nat.succ_pos l.length
    simp only [List.isEmpty_cons, Bool.false_eq_true, if_false, hmap, hlen,
      foldr_nanAdd_some]
    rw [show (((a :: l).map some).isEmpty) = false from rfl]
    simp only [Bool.false_eq_true, if_false]
    rw [nanDiv_some _ _ (ne_of_gt hlenpos),
      nanSqrt_some _ (div_nonneg hsumnn (le_of_lt hlenpos))]

/-- The Rust truncated remainder by 12 lies strictly between -12 and 12. -/
theorem tmod_twelve_bounds (r : ℤ) : -12 < r.tmod 12 ∧ r.tmod 12 < 12 := by
  refine ⟨?_, Int.tmod_lt_of_pos r (by norm_num)⟩
  cases r with
  | ofNat m =>
    have h := Int.tmod_nonneg 12 (show (0 : ℤ) ≤ Int.ofNat m from Int.ofNat_nonneg m)
    omega
  | negSucc m =>
    have hdef : (Int.negSucc m).tmod 12 = -(((m + 1) % 12 : ℕ) : ℤ) := rfl
    have hlt := Nat.mod_lt (m + 1) (show 0 < 12 by norm_num)
    omega

/-- The note index computed by frequency_to_note always lies in [0, 11]. -/
theorem noteIndex_bounds (r : ℤ) : 0 ≤ noteIndex r ∧ noteIndex r < 12 := by
  unfold noteIndex
  obtain ⟨h1, h2⟩ := tmod_twelve_bounds r
  have hnn : 0 ≤ r.tmod 12 + 12 := by omega
  rw [Int.tmod_eq_emod hnn (by norm_num)]
  omega

/-- Indexing the chromatic table in bounds succeeds and agrees with the
defaulted lookup. -/
theorem note_names_get_small (n : ℕ) (h : n < 12) :
    note_names.get? n = some (note_names.getD n "") := by
  interval_cases n <;> rfl

/-- The i32-to-usize cast is the identity on small nonnegative values. -/
theorem usizeOfI32_small (z : ℤ) (h0 : 0 ≤ z) (h12 : z < 12) :
    usizeOfI32 z = z.toNat := by
  unfold usizeOfI32
  rw [Int.emod_eq_of_lt h0 (by omega)]

/-- frequency_to_note never panics and computes the truncated-division note
name. -/
theorem frequency_to_note_eq (frequency : ℝ) :
    frequency_to_note frequency = some (amended_frequency_to_note frequency) := by
  unfold frequency_to_note amended_frequency_to_note
  by_cases h : frequency ≤ 0
  · rw [if_pos h, if_pos h]
  · rw [if_neg h, if_neg h]
    obtain ⟨h0, h12⟩ := noteIndex_bounds (semitonesFromA4 frequency)
    rw [usizeOfI32_small _ h0 h12,
      note_names_get_small _ (by omega)]
    rfl

/-- C5 amended: frequency_to_note's octave uses Rust truncating division
(4 + r / 12 toward zero, so r = -1 yields octave 4, not 3), the note index is
((r % 12) + 12) % 12 with truncated remainders, the rounded semitone offset is
saturated to the i32 range, and frequencies at or below 0.0 yield "Silence". -/
theorem C5_note_naming (frequency : ℝ) :
    frequency_to_note frequency = some (amended_frequency_to_note frequency) :=
  frequency_to_note_eq frequency

/-- C5 counterexample: one semitone below A4 (r = -1) the source names the note
"G#4" (truncating division), while the claim's floor-division formula names it
"G#3". -/
theorem C5_counterexample :
    frequency_to_note (440 * (2 : ℝ) ^ (-(1 : ℝ) / 12)) = some "G#4" ∧
    spec_frequency_to_note (440 * (2 : ℝ) ^ (-(1 : ℝ) / 12)) = "G#3" := by
  have hpos : (0 : ℝ) < 440 * (2 : ℝ) ^ (-(1 : ℝ) / 12) := by positivity
  have hlog : Real.logb 2 ((440 * (2 : ℝ) ^ (-(1 : ℝ) / 12)) / 440) * 12 = -1 := by
    rw [mul_div_cancel_left₀ _ (by norm_num : (440 : ℝ) ≠ 0),
      Real.logb_rpow (by norm_num) (by norm_num)]
    norm_num
  have hround : roundTiesAway (-1 : ℝ) = -1 := by
    unfold roundTiesAway
    rw [if_neg (by norm_num)]
    rw [show ((-1 : ℝ) - 1 / 2) = -(3 / 2) by norm_num]
    exact Int.ceil_eq_iff.mpr ⟨by norm_num, by norm_num⟩
  constructor
  · have hsem : semitonesFromA4 (440 * (2 : ℝ) ^ (-(1 : ℝ) / 12)) = -1 := by
      unfold semitonesFromA4
      rw [hlog, hround]
      rfl
    unfold frequency_to_note
    rw [if_neg (not_le.mpr hpos), hsem]
    rfl
  · unfold spec_frequency_to_note
    rw [if_neg (not_le.mpr hpos), hlog, hround]
    rfl

/-- C10: for every frequency the note lookup is in bounds: the computed note
index lies in [0, 11], the 12-element table access succeeds, and
frequency_to_note returns a string (no panic) for every positive frequency. -/
theorem C10_note_lookup_total (frequency : ℝ) :
    (0 ≤ noteIndex (semitonesFromA4 frequency) ∧
      noteIndex (semitonesFromA4 frequency) < 12) ∧
    (frequency_to_note frequency).isSome = true := by
  refine ⟨noteIndex_bounds _, ?_⟩
  rw [frequency_to_note_eq]
  rfl

/-- Invariant of the peak-picking fold over the first n bins: either no scanned
bin had positive magnitude and the accumulator is untouched at (0.0, 0), or the
accumulator holds the magnitude and index of the first bin attaining the
maximum magnitude seen so far. -/
theorem peakFold_characterization (mag : ℕ → ℝ) (hmag : ∀ i, 0 ≤ mag i) (n : ℕ) :
    ((List.range n).foldl (peakStep mag) (0, 0) = ((0 : ℝ), (0 : ℕ)) ∧
      ∀ i, i < n → 0 < i → i < 512 → mag i = 0) ∨
    (∃ b : ℕ, (List.range n).foldl (peakStep mag) (0, 0) = (mag b, b) ∧
      0 < b ∧ b < 512 ∧ b < n ∧ 0 < mag b ∧
      (∀ i, i < n → 0 < i → i < 512 → mag i ≤ mag b) ∧
      (∀ i, i < b → 0 < i → i < 512 → mag i < mag b)) := by
  induction n with
  | zero => exact Or.inl ⟨rfl, fun i hi => absurd hi (Nat.not_lt_zero i)⟩
  | succ n ih =>
    rw [List.range_succ, List.foldl_append, List.foldl_cons, List.foldl_nil]
    rcases ih with ⟨heq, hzero⟩ | ⟨b, heq, hb0, hb512, hbn, hpos, hmax, hfirst⟩
    · rw [heq]
      by_cases hc : mag n > (0 : ℝ) ∧ 0 < n ∧ n < 512
      · rw [show peakStep mag ((0 : ℝ), (0 : ℕ)) n = (mag n, n) from by
          unfold peakStep
          rw [if_pos hc]]
        right
        refine ⟨n, rfl, hc.2.1, hc.2.2, Nat.lt_succ_self n, hc.1, ?_, ?_⟩
        · intro i hi h0 h512
          rcases Nat.lt_succ_iff_lt_or_eq.mp hi with hlt | heqn
          · rw [hzero i hlt h0 h512]
            exact le_of_lt hc.1
          · subst heqn
            exact le_refl _
        · intro i hi h0 h512
          rw [hzero i hi h0 h512]
          exact hc.1
      · rw [show peakStep mag ((0 : ℝ), (0 : ℕ)) n = ((0 : ℝ), (0 : ℕ)) from by
          unfold peakStep
          rw [if_neg hc]]
        left
        refine ⟨rfl, fun i hi h0 h512 => ?_⟩
        rcases Nat.lt_succ_iff_lt_or_eq.mp hi with hlt | heqn
        · exact hzero i hlt h0 h512
        · subst heqn
          have hng : ¬ mag i > 0 := fun hg => hc ⟨hg, h0, h512⟩
          exact le_antisymm (not_lt.mp hng) (hmag i)
    · rw [heq]
      by_cases hc : mag n > mag b ∧ 0 < n ∧ n < 512
      · rw [show peakStep mag (mag b, b) n = (mag n, n) from by
          unfold peakStep
          rw [if_pos hc]]
        right
        refine ⟨n, rfl, hc.2.1, hc.2.2, Nat.lt_succ_self n, lt_trans hpos hc.1, ?_, ?_⟩
        · intro i hi h0 h512
          rcases Nat.lt_succ_iff_lt_or_eq.mp hi with hlt | heqn
          · exact le_of_lt (lt_of_le_of_lt (hmax i hlt h0 h512) hc.1)
          · subst heqn
            exact le_refl _
        · intro i hi h0 h512
          exact lt_of_le_of_lt (hmax i hi h0 h512) hc.1
      · rw [show peakStep mag (mag b, b) n = (mag b, b) from by
          unfold peakStep
          rw [if_neg hc]]
        right
        refine ⟨b, rfl, hb0, hb512, Nat.lt_succ_of_lt hbn, hpos, ?_, hfirst⟩
        intro i hi h0 h512
        rcases Nat.lt_succ_iff_lt_or_eq.mp hi with hlt | heqn
        · exact hmax i hlt h0 h512
        · subst heqn
          by_contra hgt
          exact hc ⟨not_le.mp hgt, h0, h512⟩

/-- The running-maximum scan of calculate_frequency selects exactly the lowest
maximal-magnitude bin in (0, 512), and bin 0 when all scanned magnitudes
vanish. -/
theorem peakBin_eq_specPeakBin (mag : ℕ → ℝ) (hmag : ∀ i, 0 ≤ mag i) :
    peakBin mag = specPeakBin mag := by
  unfold peakBin specPeakBin
  rcases peakFold_characterization mag hmag 1024 with
    ⟨heq, hzero⟩ | ⟨b, heq, hb0, hb512, hbn, hpos, hmax, hfirst⟩
  · rw [heq,
      if_pos (fun i h0 h512 => hzero i (lt_trans h512 (by norm_num)) h0 h512)]
  · rw [heq]
    have hmem : b ∈ {k | (0 < k ∧ k < 512) ∧ ∀ j, 0 < j → j < 512 → mag j ≤ mag k} :=
      ⟨⟨hb0, hb512⟩, fun j h0 h512 => hmax j (lt_trans h512 (by norm_num)) h0 h512⟩
    have hnotall : ¬ ∀ i, 0 < i → i < 512 → mag i = 0 := by
      intro hall
      have hb := hall b hb0 hb512
      linarith
    rw [if_neg hnotall]
    have hinf_le : sInf {k | (0 < k ∧ k < 512) ∧ ∀ j, 0 < j → j < 512 → mag j ≤ mag k} ≤ b :=
      Nat.sInf_le hmem
    obtain ⟨⟨hs0, hs512⟩, hsmax⟩ :=
      Nat.sInf_mem (⟨b, hmem⟩ :
        Set.Nonempty {k | (0 < k ∧ k < 512) ∧ ∀ j, 0 < j → j < 512 → mag j ≤ mag k})
    rcases lt_or_eq_of_le hinf_le with hlt | heq2
    · exfalso
      have h1 := hfirst _ hlt hs0 hs512
      have h2 := hsmax b hb0 hb512
      linarith
    · exact heq2.symm

/-- Bin magnitudes are nonnegative. -/
theorem binMagnitude_nonneg (samples : List ℝ) (k : ℕ) : 0 ≤ binMagnitude samples k :=
  AbsoluteValue.nonneg _ _

/-- The source's Complex::norm magnitude is the spec's sqrt(re^2 + im^2). -/
theorem specMagnitude_eq (samples : List ℝ) :
    specMagnitude samples = binMagnitude samples := by
  funext k
  unfold specMagnitude binMagnitude
  rw [Complex.abs_apply, Complex.normSq_apply, pow_two, pow_two]

/-- C1: calculate_frequency returns 0.0 for buffers with fewer than 1024
samples, and otherwise k * sample_rate / 1024 where k is the lowest index in
(0, 512) of maximal Hann-windowed DFT magnitude, ties to the first such bin,
with k = 0 when every scanned bin has magnitude 0. -/
theorem C1_peak_frequency (samples : List ℝ) (sample_rate : ℝ) :
    calculate_frequency samples sample_rate = spec_peak_frequency samples sample_rate := by
  unfold calculate_frequency spec_peak_frequency
  rw [specMagnitude_eq]
  rw [peakBin_eq_specPeakBin (binMagnitude samples) (binMagnitude_nonneg samples)]

/-- Producer (audio callback) control state: outside the critical section, or
holding the lock with the metrics value m and k of its three fields written. -/
inductive ProducerState where
  | idle
  | writing (m : AudioData) (k : ℕ)

/-- Consumer (display loop) control state: outside the critical section, or
holding the lock with k of the three fields read into local registers. -/
inductive ConsumerState where
  | idle
  | reading (k : ℕ) (a f w : ℝ)

/-- Global state of the two-thread system: the mutex-guarded store, both thread
states, the history of completed publishes, and the completed snapshots. -/
structure SysState where
  store : AudioData
  prod : ProducerState
  cons : ConsumerState
  published : List AudioData
  snapshots : List AudioData

/-- Initial system state: all-zero store, both threads outside the lock. -/
def initState : SysState :=
  { store := AudioData.new
    prod := .idle
    cons := .idle
    published := []
    snapshots := [] }

/-- Interleaving semantics. The mutex admits one holder: each acquire requires
both threads outside the critical section. The producer writes amplitude,
frequency, wavelength in the source's order and completes a publish on release;
the consumer reads the three fields in the same order and completes a snapshot
on release. -/
inductive Step : SysState → SysState → Prop where
  | pAcquire (s : SysState) (m : AudioData) (hp : s.prod = .idle)
      (hc : s.cons = .idle) :
      Step s { s with prod := .writing m 0 }
  | pWriteAmp (s : SysState) (m : AudioData) (hp : s.prod = .writing m 0) :
      Step s { s with store := { s.store with amplitude := m.amplitude }
                      prod := .writing m 1 }
  | pWriteFreq (s : SysState) (m : AudioData) (hp : s.prod = .writing m 1) :
      Step s { s with store := { s.store with frequency := m.frequency }
                      prod := .writing m 2 }
  | pWriteWave (s : SysState) (m : AudioData) (hp : s.prod = .writing m 2) :
      Step s { s with store := { s.store with wavelength := m.wavelength }
                      prod := .writing m 3 }
  | pRelease (s : SysState) (m : AudioData) (hp : s.prod = .writing m 3) :
      Step s { s with prod := .idle
                      published := m :: s.published }
  | cAcquire (s : SysState) (hc : s.cons = .idle) (hp : s.prod = .idle) :
      Step s { s with cons := .reading 0 0 0 0 }
  | cReadAmp (s : SysState) (a f w : ℝ) (hc : s.cons = .reading 0 a f w) :
      Step s { s with cons := .reading 1 s.store.amplitude f w }
  | cReadFreq (s : SysState) (a f w : ℝ) (hc : s.cons = .reading 1 a f w) :
      Step s { s with cons := .reading 2 a s.store.frequency w }
  | cReadWave (s : SysState) (a f w : ℝ) (hc : s.cons = .reading 2 a f w) :
      Step s { s with cons := .reading 3 a f s.store.wavelength }
  | cRelease (s : SysState) (a f w : ℝ) (hc : s.cons = .reading 3 a f w) :
      Step s { s with cons := .idle
                      snapshots := ⟨a, f, w⟩ :: s.snapshots }

/-- Reachability from the initial state under the interleaving semantics. -/
def Reachable (s : SysState) : Prop := Relation.ReflTransGen Step initState s

/-- System invariant: mutual exclusion, writer progress recorded in the store,
reader registers matching the store, the store holding a published value (or
the initial value) whenever the producer is outside its critical section, and
every completed snapshot being a published or initial value. -/
def Inv (s : SysState) : Prop :=
  (∀ m k, s.prod = .writing m k → s.cons = .idle ∧
      (1 ≤ k → s.store.amplitude = m.amplitude) ∧
      (2 ≤ k → s.store.frequency = m.frequency) ∧
      (3 ≤ k → s.store.wavelength = m.wavelength)) ∧
  (∀ k a f w, s.cons = .reading k a f w → s.prod = .idle ∧
      (1 ≤ k → a = s.store.amplitude) ∧
      (2 ≤ k → f = s.store.frequency) ∧
      (3 ≤ k → w = s.store.wavelength)) ∧
  (s.prod = .idle → s.store ∈ s.published ∨ s.store = AudioData.new) ∧
  (∀ snap ∈ s.snapshots, snap ∈ s.published ∨ snap = AudioData.new)

/-- The initial state satisfies the invariant. -/
theorem Inv_init : Inv initState := by
  refine ⟨?_, ?_, ?_, ?_⟩
  · intro m k h
    exact absurd h (by simp [initState])
  · intro k a f w h
    exact absurd h (by simp [initState])
  · intro _
    exact Or.inr rfl
  · intro snap h
    exact absurd h (by simp [initState])

/-- The invariant is preserved by every step. -/
theorem Inv_step {s t : SysState} (hs : Inv s) (hst : Step s t) : Inv t := by
  obtain ⟨hprod, hcons, hidle, hsnaps⟩ := hs
  cases hst with
  | pAcquire m hp hc =>
    refine ⟨fun m' k' heq => ?_, fun k' a' f' w' heq => ?_, fun hpi => ?_,
      fun snap hsnap => hsnaps snap hsnap⟩
    · obtain ⟨hm, hk⟩ : m = m' ∧ 0 = k' := by
        have h2 : ProducerState.writing m 0 = ProducerState.writing m' k' := heq
        injection h2 with hm hk
        exact ⟨hm, hk⟩
      subst hm
      subst hk
      exact ⟨hc, fun h => absurd h (by omega), fun h => absurd h (by omega),
        fun h => absurd h (by omega)⟩
    · have h2 : s.cons = ConsumerState.reading k' a' f' w' := heq
      rw [hc] at h2
      exact absurd h2 (by simp)
    · have h2 : ProducerState.writing m 0 = ProducerState.idle := hpi
      exact absurd h2 (by simp)
  | pWriteAmp m hp =>
    obtain ⟨hcidle, _, _, _⟩ := hprod m 0 hp
    refine ⟨fun m' k' heq => ?_, fun k' a' f' w' heq => ?_, fun hpi => ?_,
      fun snap hsnap => hsnaps snap hsnap⟩
    · obtain ⟨hm, hk⟩ : m = m' ∧ 1 = k' := by
        have h2 : ProducerState.writing m 1 = ProducerState.writing m' k' := heq
        injection h2 with hm hk
        exact ⟨hm, hk⟩
      subst hm
      subst hk
      exact ⟨hcidle, fun _ => rfl, fun h => absurd h (by omega),
        fun h => absurd h (by omega)⟩
    · have h2 : s.cons = ConsumerState.reading k' a' f' w' := heq
      rw [hcidle] at h2
      exact absurd h2 (by simp)
    · have h2 : ProducerState.writing m 1 = ProducerState.idle := hpi
      exact absurd h2 (by simp)
  | pWriteFreq m hp =>
    obtain ⟨hcidle, hamp, _, _⟩ := hprod m 1 hp
    refine ⟨fun m' k' heq => ?_, fun k' a' f' w' heq => ?_, fun hpi => ?_,
      fun snap hsnap => hsnaps snap hsnap⟩
    · obtain ⟨hm, hk⟩ : m = m' ∧ 2 = k' := by
        have h2 : ProducerState.writing m 2 = ProducerState.writing m' k' := heq
        injection h2 with hm hk
        exact ⟨hm, hk⟩
      subst hm
      subst hk
      exact ⟨hcidle, fun _ => hamp (by omega), fun _ => rfl,
        fun h => absurd h (by omega)⟩
    · have h2 : s.cons = ConsumerState.reading k' a' f' w' := heq
      rw [hcidle] at h2
      exact absurd h2 (by simp)
    · have h2 : ProducerState.writing m 2 = ProducerState.idle := hpi
      exact absurd h2 (by simp)
  | pWriteWave m hp =>
    obtain ⟨hcidle, hamp, hfreq, _⟩ := hprod m 2 hp
    refine ⟨fun m' k' heq => ?_, fun k' a' f' w' heq => ?_, fun hpi => ?_,
      fun snap hsnap => hsnaps snap hsnap⟩
    · obtain ⟨hm, hk⟩ : m = m' ∧ 3 = k' := by
        have h2 : ProducerState.writing m 3 = ProducerState.writing m' k' := heq
        injection h2 with hm hk
        exact ⟨hm, hk⟩
      subst hm
      subst hk
      exact ⟨hcidle, fun _ => hamp (by omega), fun _ => hfreq (by omega),
        fun _ => rfl⟩
    · have h2 : s.cons = ConsumerState.reading k' a' f' w' := heq
      rw [hcidle] at h2
      exact absurd h2 (by simp)
    · have h2 : ProducerState.writing m 3 = ProducerState.idle := hpi
      exact absurd h2 (by simp)
  | pRelease m hp =>
    obtain ⟨hcidle, hamp, hfreq, hwave⟩ := hprod m 3 hp
    have hstore : s.store = m := by
      ext
      · exact hamp (by omega)
      · exact hfreq (by omega)
      · exact hwave (by omega)
    refine ⟨fun m' k' heq => ?_, fun k' a' f' w' heq => ?_, fun hpi => ?_,
      fun snap hsnap => ?_⟩
    · have h2 : ProducerState.idle = ProducerState.writing m' k' := heq
      exact absurd h2 (by simp)
    · have h2 : s.cons = ConsumerState.reading k' a' f' w' := heq
      rw [hcidle] at h2
      exact absurd h2 (by simp)
    · left
      show s.store ∈ m :: s.published
      rw [hstore]
      exact List.mem_cons_self m s.published
    · have h2 : snap ∈ s.snapshots := hsnap
      rcases hsnaps snap h2 with hmem | hnew
      · exact Or.inl (List.mem_cons_of_mem m hmem)
      · exact Or.inr hnew
  | cAcquire hc hp =>
    refine ⟨fun m' k' heq => ?_, fun k' a' f' w' heq => ?_, fun hpi => ?_,
      fun snap hsnap => hsnaps snap hsnap⟩
    · have h2 : s.prod = ProducerState.writing m' k' := heq
      rw [hp] at h2
      exact absurd h2 (by simp)
    · obtain ⟨hk, ha, hf, hw⟩ : 0 = k' ∧ (0 : ℝ) = a' ∧ (0 : ℝ) = f' ∧ (0 : ℝ) = w' := by
        have h2 : ConsumerState.reading 0 0 0 0 = ConsumerState.reading k' a' f' w' := heq
        injection h2 with hk ha hf hw
        exact ⟨hk, ha, hf, hw⟩
      subst hk
      exact ⟨hp, fun h => absurd h (by omega), fun h => absurd h (by omega),
        fun h => absurd h (by omega)⟩
    · exact hidle hp
  | cReadAmp a f w hc =>
    obtain ⟨hpidle, _, _, _⟩ := hcons 0 a f w hc
    refine ⟨fun m' k' heq => ?_, fun k' a' f' w' heq => ?_, fun hpi => ?_,
      fun snap hsnap => hsnaps snap hsnap⟩
    · have h2 : s.prod = ProducerState.writing m' k' := heq
      rw [hpidle] at h2
      exact absurd h2 (by simp)
    · obtain ⟨hk, ha, hf, hw⟩ :
          1 = k' ∧ s.store.amplitude = a' ∧ f = f' ∧ w = w' := by
        have h2 : ConsumerState.reading 1 s.store.amplitude f w =
            ConsumerState.reading k' a' f' w' := heq
        injection h2 with hk ha hf hw
        exact ⟨hk, ha, hf, hw⟩
      subst hk
      subst ha
      exact ⟨hpidle, fun _ => rfl, fun h => absurd h (by omega),
        fun h => absurd h (by omega)⟩
    · exact hidle hpidle
  | cReadFreq a f w hc =>
    obtain ⟨hpidle, hra, _, _⟩ := hcons 1 a f w hc
    refine ⟨fun m' k' heq => ?_, fun k' a' f' w' heq => ?_, fun hpi => ?_,
      fun snap hsnap => hsnaps snap hsnap⟩
    · have h2 : s.prod = ProducerState.writing m' k' := heq
      rw [hpidle] at h2
      exact absurd h2 (by simp)
    · obtain ⟨hk, ha, hf, hw⟩ :
          2 = k' ∧ a = a' ∧ s.store.frequency = f' ∧ w = w' := by
        have h2 : ConsumerState.reading 2 a s.store.frequency w =
            ConsumerState.reading k' a' f' w' := heq
        injection h2 with hk ha hf hw
        exact ⟨hk, ha, hf, hw⟩
      subst hk
      subst ha
      subst hf
      exact ⟨hpidle, fun _ => hra (by omega), fun _ => rfl,
        fun h => absurd h (by omega)⟩
    · exact hidle hpidle
  | cReadWave a f w hc =>
    obtain ⟨hpidle, hra, hrf, _⟩ := hcons 2 a f w hc
    refine ⟨fun m' k' heq => ?_, fun k' a' f' w' heq => ?_, fun hpi => ?_,
      fun snap hsnap => hsnaps snap hsnap⟩
    · have h2 : s.prod = ProducerState.writing m' k' := heq
      rw [hpidle] at h2
      exact absurd h2 (by simp)
    · obtain ⟨hk, ha, hf, hw⟩ :
          3 = k' ∧ a = a' ∧ f = f' ∧ s.store.wavelength = w' := by
        have h2 : ConsumerState.reading 3 a f s.store.wavelength =
            ConsumerState.reading k' a' f' w' := heq
        injection h2 with hk ha hf hw
        exact ⟨hk, ha, hf, hw⟩
      subst hk
      subst ha
      subst hf
      subst hw
      exact ⟨hpidle, fun _ => hra (by omega), fun _ => hrf (by omega),
        fun _ => rfl⟩
    · exact hidle hpidle
  | cRelease a f w hc =>
    obtain ⟨hpidle, hra, hrf, hrw⟩ := hcons 3 a f w hc
    have hsnapstore : (⟨a, f, w⟩ : AudioData) = s.store := by
      ext
      · exact hra (by omega)
      · exact hrf (by omega)
      · exact hrw (by omega)
    refine ⟨fun m' k' heq => ?_, fun k' a' f' w' heq => ?_, fun hpi => ?_,
      fun snap hsnap => ?_⟩
    · have h2 : s.prod = ProducerState.writing m' k' := heq
      rw [hpidle] at h2
      exact absurd h2 (by simp)
    · have h2 : ConsumerState.idle = ConsumerState.reading k' a' f' w' := heq
      exact absurd h2 (by simp)
    · exact hidle hpidle
    · have h2 : snap ∈ (⟨a, f, w⟩ : AudioData) :: s.snapshots := hsnap
      rcases List.mem_cons.mp h2 with hhead | htail
      · rw [hhead, hsnapstore]
        exact hidle hpidle
      · exact hsnaps snap htail

/-- Every reachable state satisfies the invariant. -/
theorem Inv_reachable {s : SysState} (h : Reachable s) : Inv s := by
  induction h with
  | refl => exact Inv_init
  | tail _ hstep ih => exact Inv_step ih hstep

/-- C9: under any interleaving of the producer's mutex-guarded three-field
publish and the consumer's mutex-guarded three-field snapshot, every completed
snapshot equals some fully published SignalMetrics value or the all-zero
initial value; no snapshot is a torn mixture. -/
theorem C9_no_torn_snapshots (s : SysState) (h : Reachable s) (snap : AudioData)
    (hmem : snap ∈ s.snapshots) : snap ∈ s.published ∨ snap = AudioData.new :=
  (Inv_reachable h).2.2.2 snap hmem

/-- A concrete five-step run of the consumer from the initial state. -/
def snapshotRun : SysState :=
  { store := AudioData.new
    prod := .idle
    cons := .idle
    published := []
    snapshots := [AudioData.new] }

/-- C9 witness: the theorem applied to a concrete reachable state in which the
consumer completed one snapshot of the initial store. -/
theorem C9_witness :
    AudioData.new ∈ snapshotRun.published ∨ AudioData.new = AudioData.new := by
  have h0 : Reachable initState := Relation.ReflTransGen.refl
  have h1 := h0.tail (Step.cAcquire initState rfl rfl)
  have h2 := h1.tail (Step.cReadAmp _ 0 0 0 rfl)
  have h3 := h2.tail (Step.cReadFreq _ 0 0 0 rfl)
  have h4 := h3.tail (Step.cReadWave _ 0 0 0 rfl)
  have h5 := h4.tail (Step.cRelease _ 0 0 0 rfl)
  exact C9_no_torn_snapshots snapshotRun h5 AudioData.new (List.mem_singleton.mpr rfl)

end MusicEd
